import Mathlib

/-!
Verification development for the slow-query analysis system
(frontend client `src/frontend/app/page.tsx`, database schema `src/db/ddl.sql`).

Pure data and control flow of the client is embedded as executable Lean
definitions; the backend orchestrator (session registry / job pipeline),
whose source is not part of the repository, is modelled from the
specification where a claim depends on it.  Every such definition carries a
doc comment starting with `Modelled from the spec:`.
-/

namespace SlowQueries

/-- The six job statuses, from `type QueryStatus` in `src/frontend/app/page.tsx`
(line 22). -/
inductive QueryStatus where
  | pending
  | analyzing_schema
  | running_explain
  | generating_suggestions
  | completed
  | error
deriving DecidableEq, Repr, Fintype

open QueryStatus

/-- A status is terminal when it is `completed` or `error` (the check the
client performs at `page.tsx` line 84 and line 130). -/
def isTerminal (s : QueryStatus) : Bool :=
  s == completed || s == error

/-- The strict stage order of the pipeline, from the spec (§4.1). -/
def stageOrder : List QueryStatus :=
  [pending, analyzing_schema, running_explain, generating_suggestions, completed]

/-- Modelled from the spec: the successor stage of the Job Pipeline state
machine (§4.1, "strictly ordered, no skipping"); the pipeline implementation
itself is not part of the repository source. -/
def nextStage : QueryStatus → Option QueryStatus
  | pending => some analyzing_schema
  | analyzing_schema => some running_explain
  | running_explain => some generating_suggestions
  | generating_suggestions => some completed
  | completed => none
  | error => none

/-- Modelled from the spec: a single legal status transition of the Job
Pipeline (§4.1): either advance to the successor stage, or move from any
non-terminal stage directly to `error`; `completed` and `error` accept no
further transitions. -/
def stepOk (a b : QueryStatus) : Bool :=
  nextStage a == some b || (!isTerminal a && b == error)

/-- Position of a status in the stage order (with `error` ranked last, after
`completed`). -/
def stageRank : QueryStatus → Nat
  | pending => 0
  | analyzing_schema => 1
  | running_explain => 2
  | generating_suggestions => 3
  | completed => 4
  | error => 5

/-- The suffix of the stage order starting at a given status. -/
def tailFrom : QueryStatus → List QueryStatus
  | pending => [pending, analyzing_schema, running_explain, generating_suggestions, completed]
  | analyzing_schema => [analyzing_schema, running_explain, generating_suggestions, completed]
  | running_explain => [running_explain, generating_suggestions, completed]
  | generating_suggestions => [generating_suggestions, completed]
  | completed => [completed]
  | error => [error]

theorem tailFrom_cons (s b : QueryStatus) (h : nextStage s = some b) :
    tailFrom s = s :: tailFrom b := by
  revert h
  cases s <;> cases b <;> decide

theorem tailFrom_head (s : QueryStatus) : ∃ l, tailFrom s = s :: l := by
  cases s <;> exact ⟨_, rfl⟩

theorem stepOk_not_terminal (a b : QueryStatus) (h : stepOk a b = true) :
    isTerminal a = false := by
  revert h
  cases a <;> cases b <;> decide

theorem stepOk_rank_lt (a b : QueryStatus) (h : stepOk a b = true) :
    stageRank a < stageRank b := by
  revert h
  cases a <;> cases b <;> decide

theorem chain_error_tail (t : List QueryStatus)
    (h : List.Chain' (fun a b => stepOk a b = true) (error :: t)) : t = [] := by
  cases t with
  | nil => rfl
  | cons b t =>
      exact absurd (List.chain'_cons.mp h).1 (by cases b <;> decide)

/-- Shape of any transition trace of the status state machine: starting from
`s`, the trace is a sublist of the stage suffix at `s`, or such a sublist
followed by one final `error`. -/
theorem trace_shape :
    ∀ (l : List QueryStatus), List.Chain' (fun a b => stepOk a b = true) l →
      ∀ s, l.head? = some s →
        l.Sublist (tailFrom s) ∨ ∃ p, l = p ++ [error] ∧ p.Sublist (tailFrom s) := by
  intro l
  induction l with
  | nil => intro _ s hs; cases hs
  | cons a rest ih =>
      intro hch s hs
      have hsa : a = s := by
        simp [List.head?] at hs
        exact hs
      subst hsa
      cases rest with
      | nil =>
          left
          obtain ⟨l', hl'⟩ := tailFrom_head a
          rw [hl']
          exact (List.nil_sublist l').cons₂ a
      | cons b t =>
          have hstep : stepOk a b = true := (List.chain'_cons.mp hch).1
          have hcht : List.Chain' (fun a b => stepOk a b = true) (b :: t) :=
            (List.chain'_cons.mp hch).2
          by_cases hb : b = error
          · subst hb
            have ht : t = [] := chain_error_tail t hcht
            subst ht
            right
            refine ⟨[a], rfl, ?_⟩
            obtain ⟨l', hl'⟩ := tailFrom_head a
            rw [hl']
            exact (List.nil_sublist l').cons₂ a
          · have hnext : nextStage a = some b := by
              have : (nextStage a == some b || (!isTerminal a && b == error)) = true := hstep
              rcases Bool.or_eq_true_iff.mp this with h1 | h2
              · exact eq_of_beq h1
              · exact absurd (eq_of_beq (Bool.and_eq_true_iff.mp h2).2) hb
            have htail : tailFrom a = a :: tailFrom b := tailFrom_cons a b hnext
            rcases ih hcht b rfl with hsub | ⟨p, hp, hpsub⟩
            · left
              rw [htail]
              exact hsub.cons₂ a
            · right
              refine ⟨a :: p, by rw [hp]; rfl, ?_⟩
              rw [htail]
              exact hpsub.cons₂ a

theorem sublist_concat_cases {α : Type} (l p : List α) (x : α)
    (h : l.Sublist (p ++ [x])) :
    l.Sublist p ∨ ∃ q, l = q ++ [x] ∧ q.Sublist p := by
  rcases List.sublist_append_iff.mp h with ⟨l₁, l₂, hl, h₁, h₂⟩
  cases l₂ with
  | nil =>
      left
      rw [hl, List.append_nil]
      exact h₁
  | cons y t =>
      have hyt : y :: t = [x] := by
        rcases List.sublist_singleton.mp h₂ with h | h
        · cases h
        · exact h
      right
      exact ⟨l₁, by rw [hl, hyt], h₁⟩

/-- C1: for every job, any (possibly sparse) observed subsequence of its
status trace is a subsequence of the strict stage order
`pending, analyzing_schema, running_explain, generating_suggestions,
completed`, or such a subsequence ending in `error`; moreover a terminal
status (`completed` or `error`) admits no further transition, and every
transition strictly increases the stage rank, so no earlier stage is ever
revisited. -/
theorem C1_status_lifecycle :
    (∀ (l obs : List QueryStatus),
        List.Chain' (fun a b => stepOk a b = true) l →
        l.head? = some pending →
        obs.Sublist l →
        obs.Sublist stageOrder ∨ ∃ p, obs = p ++ [error] ∧ p.Sublist stageOrder)
    ∧ (∀ a b : QueryStatus, isTerminal a = true → stepOk a b = false)
    ∧ (∀ a b : QueryStatus, stepOk a b = true → stageRank a < stageRank b) := by
  refine ⟨?_, by decide, stepOk_rank_lt⟩
  intro l obs hch hhd hobs
  have hshape := trace_shape l hch pending hhd
  have hstage : tailFrom pending = stageOrder := rfl
  rcases hshape with hsub | ⟨p, hp, hpsub⟩
  · left
    exact hobs.trans (hstage ▸ hsub)
  · subst hp
    rcases sublist_concat_cases obs p error hobs with h1 | ⟨q, hq, hqsub⟩
    · left
      exact h1.trans (hstage ▸ hpsub)
    · right
      exact ⟨q, hq, hqsub.trans (hstage ▸ hpsub)⟩

/-- Witness for C1 at a concrete trace `[pending, analyzing_schema, error]`
with observation `[pending, error]`. -/
theorem C1_status_lifecycle_witness :
    [pending, error].Sublist stageOrder ∨
      ∃ p, [pending, error] = p ++ [error] ∧ p.Sublist stageOrder :=
  C1_status_lifecycle.1 [pending, analyzing_schema, error] [pending, error]
    (by simp only [List.chain'_cons, List.chain'_singleton]; exact ⟨by decide, by decide⟩)
    rfl
    ((List.nil_sublist []).cons₂ error |>.cons analyzing_schema |>.cons₂ pending)

/-- Modelled from the spec: the deterministic progress floor of each stage
(§4.1: stage-specific floors such as 25, strictly increasing across stage
boundaries; `progress_percentage = 100` exactly at a terminal state, §8). -/
def stageFloor : QueryStatus → Nat
  | pending => 0
  | analyzing_schema => 25
  | running_explain => 50
  | generating_suggestions => 75
  | completed => 100
  | error => 100

/-- The mutable per-job state visible to the status API: current status and
progress percentage. -/
structure JobState where
  status : QueryStatus
  progress : Nat
deriving DecidableEq, Repr

/-- The initial job state: `pending` with progress 0 (§6). -/
def initJob : JobState := ⟨pending, 0⟩

/-- Modelled from the spec: one transition of a Job Pipeline — a legal status
transition that sets the progress to the new stage's floor (§4.1). -/
def jobStep (a b : JobState) : Bool :=
  stepOk a.status b.status && b.progress == stageFloor b.status

/-- Per-state invariant: the progress equals the floor of the current stage. -/
def jobInv (j : JobState) : Bool :=
  j.progress == stageFloor j.status

theorem jobStep_inv (a b : JobState) (h : jobStep a b = true) : jobInv b = true :=
  (Bool.and_eq_true_iff.mp h).2

theorem jobTrace_inv :
    ∀ (l : List JobState), List.Chain' (fun a b => jobStep a b = true) l →
      ∀ j0, l.head? = some j0 → jobInv j0 = true →
        ∀ j ∈ l, jobInv j = true := by
  intro l
  induction l with
  | nil => intro _ j0 hhd _ j hj; cases hj
  | cons a rest ih =>
      intro hch j0 hhd hinv j hj
      have ha : j0 = a := by
        simp [List.head?] at hhd
        exact hhd.symm
      subst ha
      rcases List.mem_cons.mp hj with rfl | hmem
      · exact hinv
      · cases rest with
        | nil => cases hmem
        | cons b t =>
            have hstep : jobStep j0 b = true := (List.chain'_cons.mp hch).1
            exact ih (List.chain'_cons.mp hch).2 b rfl (jobStep_inv j0 b hstep) j hmem

theorem stageFloor_le_100 (s : QueryStatus) : stageFloor s ≤ 100 := by
  cases s <;> decide

theorem stageFloor_mono (a b : QueryStatus) (h : stepOk a b = true) :
    stageFloor a ≤ stageFloor b := by
  revert h
  cases a <;> cases b <;> decide

theorem stageFloor_100_iff (s : QueryStatus) :
    stageFloor s = 100 ↔ isTerminal s = true := by
  cases s <;> decide

/-- C2: along any execution of a job pipeline starting at the initial state,
`progress_percentage` stays in `[0, 100]`, is monotonically non-decreasing
from each state to the next, and equals 100 exactly when the job's status is
terminal (`completed` or `error`). -/
theorem C2_progress_percentage :
    ∀ (l : List JobState), List.Chain' (fun a b => jobStep a b = true) l →
      l.head? = some initJob →
      (∀ j ∈ l, j.progress ≤ 100)
      ∧ List.Chain' (fun a b => a.progress ≤ b.progress) l
      ∧ (∀ j ∈ l, (j.progress = 100 ↔ isTerminal j.status = true)) := by
  intro l hch hhd
  have hinv : ∀ j ∈ l, jobInv j = true :=
    jobTrace_inv l hch initJob hhd (by decide)
  have hfix : ∀ j ∈ l, j.progress = stageFloor j.status := by
    intro j hj
    have h := hinv j hj
    simp only [jobInv, beq_iff_eq] at h
    exact h
  refine ⟨?_, ?_, ?_⟩
  · intro j hj
    rw [hfix j hj]
    exact stageFloor_le_100 j.status
  · rw [List.chain'_iff_get] at hch ⊢
    intro i hi
    have hstep := hch i hi
    have hmem1 : l.get ⟨i, by omega⟩ ∈ l := l.get_mem _ _
    have hmem2 : l.get ⟨i + 1, by omega⟩ ∈ l := l.get_mem _ _
    rw [hfix _ hmem1, hfix _ hmem2]
    exact stageFloor_mono _ _ (Bool.and_eq_true_iff.mp hstep).1
  · intro j hj
    rw [hfix j hj]
    exact stageFloor_100_iff j.status

/-- Witness for C2 at the concrete trace
`[⟨pending, 0⟩, ⟨analyzing_schema, 25⟩, ⟨error, 100⟩]`. -/
theorem C2_progress_percentage_witness :
    (⟨error, 100⟩ : JobState).progress = 100 ↔
      isTerminal (⟨error, 100⟩ : JobState).status = true :=
  (C2_progress_percentage [⟨pending, 0⟩, ⟨analyzing_schema, 25⟩, ⟨error, 100⟩]
      (by simp only [List.chain'_cons, List.chain'_singleton]; exact ⟨by decide, by decide⟩)
      rfl).2.2
    ⟨error, 100⟩ (by simp)

/-- One entry of the executed-query log, from `type ExecutedQuery` in
`page.tsx` (lines 24-28); `result_preview` is an optional field
(`result_preview?: string`). -/
structure ExecutedQuery where
  query : String
  timestamp : String
  result_preview : Option String
deriving DecidableEq, Repr

/-- One job snapshot, from `type SlowQuery` in `page.tsx` (lines 30-39);
`current_step` and `current_customer_query` are optional fields, all others
(including `suggestions`) are required. -/
structure SlowQuery where
  id : String
  query : String
  suggestions : String
  status : QueryStatus
  current_step : Option String
  progress_percentage : Int
  current_customer_query : Option String
  executed_queries : List ExecutedQuery
deriving DecidableEq, Repr

/-- The session-creation response, from `type SlowQueriesResponse` in
`page.tsx` (lines 41-44). -/
structure SlowQueriesResponse where
  queries : List SlowQuery
  session_id : String
deriving DecidableEq, Repr

/-- A job snapshot counts as done when its status is `completed` or `error`
(`page.tsx` line 84). -/
def isDone (q : SlowQuery) : Bool :=
  q.status == completed || q.status == error

/-- `data.every(q => ...)` over the snapshot list (`page.tsx` line 84). -/
def allDone (l : List SlowQuery) : Bool :=
  l.all isDone

/-- `data.queries.some(q => q.status !== "completed" && q.status !== "error")`
(`page.tsx` line 130). -/
def hasPending (l : List SlowQuery) : Bool :=
  l.any (fun q => !(q.status == completed) && !(q.status == error))

/-- The polling period passed to `setInterval` (`page.tsx` line 134). -/
def POLL_INTERVAL_MS : Nat := 1000

/-- The delay passed to `setTimeout` before the cleanup `DELETE`
(`page.tsx` line 97). -/
def CLEANUP_DELAY_MS : Nat := 10000

/-- An interval timer created by `setInterval`: its id, the session id its
callback polls, and its period in milliseconds. -/
structure Timer where
  id : Nat
  sessionId : String
  periodMs : Nat
deriving DecidableEq, Repr

/-- The client-visible state of the `Home` component relevant to polling:
the `pollIntervalRef` cell, the set of interval timers currently alive (a
timer leaves this list exactly when `clearInterval` is called on it), a
fresh-id counter, the rendered data, the loading flag, the scheduled cleanup
deletions, and whether the component is mounted. -/
structure ClientState where
  pollInterval : Option Timer
  liveTimers : List Timer
  nextTimerId : Nat
  slowQueries : List SlowQuery
  sessionId : Option String
  sqLoading : Bool
  pendingDeletes : List (String × Nat)
  mounted : Bool
deriving DecidableEq, Repr

/-- The client state right after mount, before any fetch: empty data, no
timer, not loading (`page.tsx` lines 46-50). -/
def initClient : ClientState :=
  { pollInterval := none
    liveTimers := []
    nextTimerId := 0
    slowQueries := []
    sessionId := none
    sqLoading := false
    pendingDeletes := []
    mounted := true }

/-- The atomic events (JavaScript turns) of the client: start of
`fetchSlowQueries`, its success/failure continuation, the continuations of
`pollStatusUpdates` for an ok / 404 / network-error response, and unmount. -/
inductive ClientEvent where
  | fetchStart
  | fetchSuccess (resp : SlowQueriesResponse)
  | fetchFailure
  | pollOk (sid : String) (data : List SlowQuery)
  | pollNotFound (sid : String)
  | pollNetworkError (sid : String)
  | unmount
deriving DecidableEq, Repr

/-- `clearInterval(pollIntervalRef.current); pollIntervalRef.current = null`
(`page.tsx` lines 89-90 and 118-120). -/
def clearCurrentInterval (s : ClientState) : ClientState :=
  match s.pollInterval with
  | some t =>
      { s with pollInterval := none
               liveTimers := s.liveTimers.filter (fun u => u.id != t.id) }
  | none => s

/-- One atomic step of the client, translated from `page.tsx`:
`fetchStart` runs the head of `fetchSlowQueries` (lines 113-121; it can only
be initiated while the refresh button is enabled, i.e. `sqLoading` is false,
and the component is mounted); `fetchSuccess` runs its continuation
(lines 125-135); `pollOk`/`pollNotFound` run the continuations of
`pollStatusUpdates` (lines 79-107); `unmount` runs the cleanup effect
(lines 145-151, which calls `clearInterval` without nulling the ref). -/
def clientStep (s : ClientState) (e : ClientEvent) : ClientState :=
  match e with
  | .fetchStart =>
      if s.mounted && !s.sqLoading then
        { clearCurrentInterval s with sqLoading := true }
      else s
  | .fetchSuccess resp =>
      if s.sqLoading then
        if hasPending resp.queries then
          { s with slowQueries := resp.queries
                   sessionId := some resp.session_id
                   pollInterval := some ⟨s.nextTimerId, resp.session_id, POLL_INTERVAL_MS⟩
                   liveTimers := s.liveTimers ++ [⟨s.nextTimerId, resp.session_id, POLL_INTERVAL_MS⟩]
                   nextTimerId := s.nextTimerId + 1
                   sqLoading := false }
        else
          { s with slowQueries := resp.queries
                   sessionId := some resp.session_id
                   sqLoading := false }
      else s
  | .fetchFailure =>
      if s.sqLoading then { s with sqLoading := false } else s
  | .pollOk sid data =>
      if allDone data && s.pollInterval.isSome then
        { clearCurrentInterval { s with slowQueries := data } with
            pendingDeletes := s.pendingDeletes ++ [(sid, CLEANUP_DELAY_MS)] }
      else { s with slowQueries := data }
  | .pollNotFound _sid =>
      if s.pollInterval.isSome then clearCurrentInterval s else s
  | .pollNetworkError _sid => s
  | .unmount =>
      match s.pollInterval with
      | some t =>
          { s with mounted := false
                   liveTimers := s.liveTimers.filter (fun u => u.id != t.id) }
      | none => { s with mounted := false }

/-- States of the client reachable from the initial state by any sequence of
events. -/
inductive Reachable : ClientState → Prop where
  | init : Reachable initClient
  | step : ∀ {s : ClientState} (e : ClientEvent), Reachable s → Reachable (clientStep s e)

/-- The inductive invariant of the client's timer discipline: every live
interval timer is the one held in `pollIntervalRef`, there is at most one
live timer, while a fetch is in flight there is no timer at all, and every
live timer ticks with the 1000 ms period. -/
def clientInv (s : ClientState) : Prop :=
  (∀ t ∈ s.liveTimers, s.pollInterval = some t)
  ∧ s.liveTimers.length ≤ 1
  ∧ (s.sqLoading = true → s.pollInterval = none ∧ s.liveTimers = [])
  ∧ (∀ t ∈ s.liveTimers, t.periodMs = POLL_INTERVAL_MS)

theorem liveTimers_nil_of_pollInterval_none (s : ClientState)
    (href : ∀ t ∈ s.liveTimers, s.pollInterval = some t)
    (hp : s.pollInterval = none) : s.liveTimers = [] := by
  cases hl : s.liveTimers with
  | nil => rfl
  | cons t rest =>
      rw [hl] at href
      rw [href t (List.mem_cons_self t rest)] at hp
      cases hp

theorem filter_out_ref_nil (s : ClientState) (t : Timer)
    (href : ∀ u ∈ s.liveTimers, s.pollInterval = some u)
    (hp : s.pollInterval = some t) :
    s.liveTimers.filter (fun u => u.id != t.id) = [] := by
  rw [List.filter_eq_nil_iff]
  intro u hu
  have h2 := href u hu
  rw [hp] at h2
  have h3 : u = t := by
    injection h2 with h4
    exact h4.symm
  subst h3
  simp

theorem clearCurrentInterval_inv (s : ClientState)
    (href : ∀ t ∈ s.liveTimers, s.pollInterval = some t) :
    (clearCurrentInterval s).pollInterval = none
    ∧ (clearCurrentInterval s).liveTimers = [] := by
  cases hp : s.pollInterval with
  | none =>
      have hnil := liveTimers_nil_of_pollInterval_none s href hp
      simp [clearCurrentInterval, hp, hnil]
  | some t =>
      have hnil := filter_out_ref_nil s t href hp
      simp [clearCurrentInterval, hp, hnil]

theorem clientInv_preserved (s : ClientState) (e : ClientEvent)
    (h : clientInv s) : clientInv (clientStep s e) := by
  obtain ⟨href, hlen, hload, hper⟩ := h
  cases e with
  | fetchStart =>
      simp only [clientStep]
      by_cases hg : (s.mounted && !s.sqLoading) = true
      · rw [if_pos hg]
        obtain ⟨h1, h2⟩ := clearCurrentInterval_inv s href
        refine ⟨?_, ?_, ?_, ?_⟩ <;> simp [h1, h2]
      · rw [if_neg hg]
        exact ⟨href, hlen, hload, hper⟩
  | fetchSuccess resp =>
      simp only [clientStep]
      by_cases hg : s.sqLoading = true
      · rw [if_pos hg]
        obtain ⟨hnone, hnil⟩ := hload hg
        by_cases hp : hasPending resp.queries = true
        · rw [if_pos hp]
          refine ⟨?_, ?_, ?_, ?_⟩ <;> simp [hnil]
        · rw [if_neg hp]
          refine ⟨?_, ?_, ?_, ?_⟩ <;> simp [hnil, hnone]
      · rw [if_neg hg]
        exact ⟨href, hlen, hload, hper⟩
  | fetchFailure =>
      simp only [clientStep]
      by_cases hg : s.sqLoading = true
      · rw [if_pos hg]
        obtain ⟨hnone, hnil⟩ := hload hg
        refine ⟨?_, ?_, ?_, ?_⟩ <;> simp [hnil, hnone]
      · rw [if_neg hg]
        exact ⟨href, hlen, hload, hper⟩
  | pollOk sid data =>
      simp only [clientStep]
      by_cases hg : (allDone data && (Option.isSome s.pollInterval)) = true
      · rw [if_pos hg]
        obtain ⟨h1, h2⟩ :=
          clearCurrentInterval_inv { s with slowQueries := data } href
        refine ⟨?_, ?_, ?_, ?_⟩ <;> simp [h1, h2]
      · rw [if_neg hg]
        exact ⟨href, hlen, hload, hper⟩
  | pollNotFound sid =>
      simp only [clientStep]
      by_cases hg : s.pollInterval.isSome = true
      · rw [if_pos hg]
        obtain ⟨h1, h2⟩ := clearCurrentInterval_inv s href
        refine ⟨?_, ?_, ?_, ?_⟩ <;> simp [h1, h2]
      · rw [if_neg hg]
        exact ⟨href, hlen, hload, hper⟩
  | pollNetworkError sid =>
      exact ⟨href, hlen, hload, hper⟩
  | unmount =>
      simp only [clientStep]
      cases hp : s.pollInterval with
      | none =>
          have hnil := liveTimers_nil_of_pollInterval_none s href hp
          refine ⟨?_, ?_, ?_, ?_⟩ <;> simp [hnil, hp]
      | some t =>
          have hnil := filter_out_ref_nil s t href hp
          refine ⟨?_, ?_, ?_, ?_⟩
          · simp [hnil]
          · simp [hnil]
          · intro hsl
            rw [(hload hsl).1] at hp
            cases hp
          · simp [hnil]

theorem clientInv_reachable (s : ClientState) (h : Reachable s) : clientInv s := by
  induction h with
  | init => refine ⟨?_, ?_, ?_, ?_⟩ <;> simp [initClient]
  | step e _ ih => exact clientInv_preserved _ e ih

theorem pollInterval_none_of_not_isSome (s : ClientState)
    (h : ¬s.pollInterval.isSome = true) : s.pollInterval = none := by
  cases hp : s.pollInterval with
  | none => rfl
  | some t => rw [hp] at h; simp at h

/-- A 404 poll response leaves no timer: the ref is null and no interval is
alive (`page.tsx` lines 102-106). -/
theorem step_pollNotFound_clears (s : ClientState)
    (href : ∀ t ∈ s.liveTimers, s.pollInterval = some t) (sid : String) :
    (clientStep s (.pollNotFound sid)).pollInterval = none
    ∧ (clientStep s (.pollNotFound sid)).liveTimers = [] := by
  simp only [clientStep]
  by_cases hsome : s.pollInterval.isSome = true
  · rw [if_pos hsome]
    exact clearCurrentInterval_inv s href
  · have hnone := pollInterval_none_of_not_isSome s hsome
    have hnil := liveTimers_nil_of_pollInterval_none s href hnone
    rw [if_neg hsome]
    exact ⟨hnone, hnil⟩

/-- C3: the client polls with a fixed 1-second (`1000` ms) interval timer;
a timer is started by a session fetch exactly when some returned job is
non-terminal; a successful poll in which every job is `completed` or `error`
clears the timer (no live timer remains), and a poll with some non-terminal
job leaves the timer untouched. -/
theorem C3_polling_cadence :
    POLL_INTERVAL_MS = 1000
    ∧ (∀ s : ClientState, Reachable s →
        (∀ t ∈ s.liveTimers, t.periodMs = POLL_INTERVAL_MS)
        ∧ (∀ resp : SlowQueriesResponse, s.sqLoading = true →
            ((clientStep s (.fetchSuccess resp)).pollInterval.isSome
              ↔ hasPending resp.queries = true))
        ∧ (∀ sid data, allDone data = true →
            (clientStep s (.pollOk sid data)).pollInterval = none
            ∧ (clientStep s (.pollOk sid data)).liveTimers = [])
        ∧ (∀ sid data, allDone data = false →
            (clientStep s (.pollOk sid data)).pollInterval = s.pollInterval
            ∧ (clientStep s (.pollOk sid data)).liveTimers = s.liveTimers)) := by
  refine ⟨rfl, ?_⟩
  intro s hs
  obtain ⟨href, hlen, hload, hper⟩ := clientInv_reachable s hs
  refine ⟨hper, ?_, ?_, ?_⟩
  · intro resp hg
    simp only [clientStep]
    rw [if_pos hg]
    obtain ⟨hnone, hnil⟩ := hload hg
    by_cases hp : hasPending resp.queries = true
    · rw [if_pos hp]
      simp [hp]
    · rw [if_neg hp]
      simp [hnone]
      cases h : hasPending resp.queries with
      | false => rfl
      | true => exact absurd h hp
  · intro sid data hdone
    simp only [clientStep]
    by_cases hsome : s.pollInterval.isSome = true
    · rw [if_pos (by rw [hdone, hsome]; rfl)]
      obtain ⟨h1, h2⟩ :=
        clearCurrentInterval_inv { s with slowQueries := data } href
      exact ⟨h1, h2⟩
    · have hnone : s.pollInterval = none := by
        cases hp : s.pollInterval with
        | none => rfl
        | some t => rw [hp] at hsome; simp at hsome
      have hnil := liveTimers_nil_of_pollInterval_none s href hnone
      rw [if_neg (by rw [hnone]; simp)]
      exact ⟨hnone, hnil⟩
  · intro sid data hdone
    simp only [clientStep]
    rw [if_neg (by rw [hdone]; simp)]
    exact ⟨rfl, rfl⟩

/-- Witness for C3 at the initial client state and an all-terminal poll
payload. -/
theorem C3_polling_cadence_witness :
    (clientStep initClient (.pollOk "s0" [])).pollInterval = none
    ∧ (clientStep initClient (.pollOk "s0" [])).liveTimers = [] :=
  (C3_polling_cadence.2 initClient Reachable.init).2.2.1 "s0" [] rfl

/-- C8: in every reachable client state there is at most one live polling
timer and any live timer is exactly the one held in `pollIntervalRef`;
starting a new fetch (button enabled, component mounted), receiving a 404
poll response, and unmounting each leave no live timer, so polling for a
superseded or torn-down session never continues alongside a new timer. -/
theorem C8_single_timer :
    ∀ s : ClientState, Reachable s →
      s.liveTimers.length ≤ 1
      ∧ (∀ t ∈ s.liveTimers, s.pollInterval = some t)
      ∧ (s.mounted = true → s.sqLoading = false →
          (clientStep s .fetchStart).liveTimers = []
          ∧ (clientStep s .fetchStart).pollInterval = none)
      ∧ (∀ sid, (clientStep s (.pollNotFound sid)).pollInterval = none
          ∧ (clientStep s (.pollNotFound sid)).liveTimers = [])
      ∧ (clientStep s .unmount).liveTimers = [] := by
  intro s hs
  obtain ⟨href, hlen, hload, hper⟩ := clientInv_reachable s hs
  refine ⟨hlen, href, ?_, ?_, ?_⟩
  · intro hm hl
    simp only [clientStep]
    rw [if_pos (by rw [hm, hl]; rfl)]
    obtain ⟨h1, h2⟩ := clearCurrentInterval_inv s href
    exact ⟨h2, h1⟩
  · intro sid
    exact step_pollNotFound_clears s href sid
  · simp only [clientStep]
    cases hp : s.pollInterval with
    | none => exact liveTimers_nil_of_pollInterval_none s href hp
    | some t => exact filter_out_ref_nil s t href hp

/-- Witness for C8 at the initial client state. -/
theorem C8_single_timer_witness :
    (clientStep initClient .fetchStart).liveTimers = []
    ∧ (clientStep initClient .fetchStart).pollInterval = none :=
  (C8_single_timer initClient Reachable.init).2.2.1 rfl rfl

/-- Modelled from the spec: the registry error taxonomy relevant to lookup
and deletion (§7). -/
inductive RegistryError where
  | sessionNotFound
deriving DecidableEq, Repr

/-- Modelled from the spec: a stored session — the ordered sequence of job
snapshots created together (§3). -/
structure SessionData where
  jobs : List SlowQuery
deriving DecidableEq, Repr

/-- Modelled from the spec: the process-wide Session Registry, a map from
session id to session (§2); ids that are unknown or already torn down are
absent. -/
structure Registry where
  find : String → Option SessionData

/-- Modelled from the spec: `get_status(session_id)` (§4.2) — returns the
snapshots of the session's jobs, or `SessionNotFound` when the id is unknown
or already torn down. -/
def getStatus (reg : Registry) (sid : String) : Except RegistryError (List SlowQuery) :=
  match reg.find sid with
  | none => .error .sessionNotFound
  | some sess => .ok sess.jobs

/-- Modelled from the spec: removal of a session from the registry, by
automatic teardown or explicit delete (§4.2); removal is atomic — the whole
entry disappears at once. -/
def removeSession (reg : Registry) (sid : String) : Registry :=
  ⟨fun x => if x = sid then none else reg.find x⟩

/-- Modelled from the spec: `delete_session(session_id)` (§4.2) — removes
the session; deleting an already-removed session reports `SessionNotFound`. -/
def deleteSession (reg : Registry) (sid : String) : Except RegistryError Registry :=
  match reg.find sid with
  | none => .error .sessionNotFound
  | some _ => .ok (removeSession reg sid)

/-- Modelled from the spec: the fixed grace delay (default ~10 seconds) after
which the Registry removes a session once every job is terminal (§4.2). -/
def GRACE_DELAY_MS : Nat := 10000

/-- Modelled from the spec: absolute time of the automatic teardown, counted
from the moment every job of the session became terminal (§4.2). -/
def autoTeardownAt (tAllTerminal : Nat) : Nat := tAllTerminal + GRACE_DELAY_MS

/-- Absolute time at which the client's scheduled cleanup `DELETE` fires,
counted from the poll that observed all jobs terminal (`page.tsx`
lines 92-97). -/
def clientDeleteAt (tObserved : Nat) : Nat := tObserved + CLEANUP_DELAY_MS

/-- An empty registry: every id is unknown. -/
def emptyRegistry : Registry := ⟨fun _ => none⟩

/-- C4: when a poll shows every job terminal while a timer is live, the
client stops the timer and schedules an explicit `DELETE` of the session
after `CLEANUP_DELAY_MS` (10 s); since the automatic teardown fires
`GRACE_DELAY_MS` (10 s) after the jobs became terminal and the client's
observation cannot precede terminality, the client's delete never fires
before the automatic teardown — the two removals are ordered, and a delete
that arrives after teardown safely reports `SessionNotFound` (idempotent). -/
theorem C4_cleanup_after_delay :
    ∀ s : ClientState, Reachable s → ∀ sid data,
      allDone data = true → s.pollInterval.isSome = true →
      ((sid, CLEANUP_DELAY_MS) ∈ (clientStep s (.pollOk sid data)).pendingDeletes
        ∧ (clientStep s (.pollOk sid data)).pollInterval = none)
      ∧ (∀ tAllTerminal tObserved : Nat, tAllTerminal ≤ tObserved →
          autoTeardownAt tAllTerminal ≤ clientDeleteAt tObserved)
      ∧ (∀ reg : Registry, reg.find sid = none →
          deleteSession reg sid = .error .sessionNotFound) := by
  intro s hs sid data hdone hsome
  obtain ⟨href, hlen, hload, hper⟩ := clientInv_reachable s hs
  refine ⟨?_, ?_, ?_⟩
  · simp only [clientStep]
    rw [if_pos (by rw [hdone, hsome]; rfl)]
    obtain ⟨h1, h2⟩ :=
      clearCurrentInterval_inv { s with slowQueries := data } href
    constructor
    · have hpend :
          (clearCurrentInterval { s with slowQueries := data }).pendingDeletes
            = s.pendingDeletes := by
        unfold clearCurrentInterval
        cases hp : ({ s with slowQueries := data } : ClientState).pollInterval <;> rfl
      simp
    · exact h1
  · intro t1 t2 h12
    unfold autoTeardownAt clientDeleteAt GRACE_DELAY_MS CLEANUP_DELAY_MS
    omega
  · intro reg hfind
    unfold deleteSession
    rw [hfind]

/-- Witness for C4: a reachable state holding a live timer (created by a
fetch that returned one pending job), then an all-terminal poll. -/
theorem C4_cleanup_after_delay_witness :
    (("sess", CLEANUP_DELAY_MS) ∈
        (clientStep
          (clientStep (clientStep initClient .fetchStart)
            (.fetchSuccess ⟨[⟨"1", "SELECT 1", "", pending, none, 0, none, []⟩], "sess"⟩))
          (.pollOk "sess" [])).pendingDeletes
      ∧ (clientStep
          (clientStep (clientStep initClient .fetchStart)
            (.fetchSuccess ⟨[⟨"1", "SELECT 1", "", pending, none, 0, none, []⟩], "sess"⟩))
          (.pollOk "sess" [])).pollInterval = none) :=
  (C4_cleanup_after_delay
    (clientStep (clientStep initClient .fetchStart)
      (.fetchSuccess ⟨[⟨"1", "SELECT 1", "", pending, none, 0, none, []⟩], "sess"⟩))
    (Reachable.step _ (Reachable.step _ Reachable.init))
    "sess" [] rfl (by decide)).1

/-- C5: polling an unknown or already-removed session id yields
`SessionNotFound` (never a snapshot), and a client that receives a 404 while
polling clears its timer — no live polling timer remains for that session. -/
theorem C5_not_found_behaviour :
    (∀ (reg : Registry) (sid : String), reg.find sid = none →
        getStatus reg sid = .error .sessionNotFound)
    ∧ (∀ (reg : Registry) (sid : String),
        getStatus (removeSession reg sid) sid = .error .sessionNotFound)
    ∧ (∀ s : ClientState, Reachable s → ∀ sid,
        (clientStep s (.pollNotFound sid)).pollInterval = none
        ∧ (clientStep s (.pollNotFound sid)).liveTimers = []) := by
  refine ⟨?_, ?_, ?_⟩
  · intro reg sid hfind
    unfold getStatus
    rw [hfind]
  · intro reg sid
    unfold getStatus removeSession
    simp
  · intro s hs sid
    exact step_pollNotFound_clears s (clientInv_reachable s hs).1 sid

/-- Witness for C5 at an empty registry and the initial client state. -/
theorem C5_not_found_behaviour_witness :
    getStatus emptyRegistry "unknown" = .error .sessionNotFound :=
  C5_not_found_behaviour.1 emptyRegistry "unknown" rfl

/-- The literal failure marker the client compares a result preview against
(`page.tsx` line 294). -/
def FAILURE_PREVIEW : String := "Query failed"

/-- The two ways the client styles a result-preview badge (`page.tsx`
lines 293-297): the red "failed" styling or the green "success" styling. -/
inductive PreviewClass where
  | failure
  | success
deriving DecidableEq, Repr

/-- The client's classification of a result preview (`page.tsx`
lines 293-297): failure exactly when the preview equals `"Query failed"`,
success otherwise. -/
def classifyPreview (p : String) : PreviewClass :=
  if p = FAILURE_PREVIEW then .failure else .success

/-- The badge the client renders for a log entry (`page.tsx` lines 292-300):
none when `result_preview` is absent or empty (falsy), otherwise the
classified preview. -/
def previewBadge (p : Option String) : Option PreviewClass :=
  match p with
  | none => none
  | some p => if p = "" then none else some (classifyPreview p)

/-- Modelled from the spec: the `executed_queries` entry recorded for a
failed query execution carries the literal failure marker as its
`result_preview` (§4.1, §8 — "the literal marker used for failures", the
marker the client's rendering tests for). -/
def failureLogEntry (q timestamp : String) : ExecutedQuery :=
  ⟨q, timestamp, some FAILURE_PREVIEW⟩

/-- Modelled from the spec: the entry recorded for a successful query
execution, whose `result_preview` is a success summary (§4.1). -/
def successLogEntry (q timestamp preview : String) : ExecutedQuery :=
  ⟨q, timestamp, some preview⟩

/-- C6: the entry recorded for a failed execution is classified as failed by
the client; the client classifies a preview as failed exactly when it equals
the literal string `"Query failed"`; and the entry for a successful
execution whose (nonempty) summary differs from the marker is classified as
success — failure entries are programmatically distinguishable from every
success preview. -/
theorem C6_failure_preview :
    (∀ q t : String, previewBadge (failureLogEntry q t).result_preview = some .failure)
    ∧ (∀ p : String, classifyPreview p = .failure ↔ p = "Query failed")
    ∧ (∀ q t p : String, p ≠ "Query failed" → p ≠ "" →
        previewBadge (successLogEntry q t p).result_preview = some .success) := by
  refine ⟨?_, ?_, ?_⟩
  · intro q t
    simp [previewBadge, failureLogEntry, classifyPreview, FAILURE_PREVIEW]
  · intro p
    unfold classifyPreview FAILURE_PREVIEW
    by_cases h : p = "Query failed"
    · rw [if_pos h]
      simp [h]
    · rw [if_neg h]
      simp [h]
  · intro q t p hne hempty
    simp [previewBadge, successLogEntry, classifyPreview, FAILURE_PREVIEW, hne, hempty]

/-- Witness for C6 at a concrete failed entry and a concrete success entry. -/
theorem C6_failure_preview_witness :
    previewBadge (successLogEntry "SELECT 1" "t0" "1 row").result_preview
      = some .success :=
  C6_failure_preview.2.2 "SELECT 1" "t0" "1 row" (by decide) (by decide)

/-- The JSON field names a serialized job snapshot carries, as determined by
the client's `SlowQuery` type (`page.tsx` lines 30-39): required fields are
always present; the optional fields `current_step` and
`current_customer_query` are present exactly when set. -/
def snapshotFields (q : SlowQuery) : List String :=
  ["id", "query", "suggestions", "status"]
    ++ (if q.current_step.isSome then ["current_step"] else [])
    ++ ["progress_percentage"]
    ++ (if q.current_customer_query.isSome then ["current_customer_query"] else [])
    ++ ["executed_queries"]

/-- The field names of a serialized `executed_queries` entry, as determined
by the client's `ExecutedQuery` type (`page.tsx` lines 24-28):
`result_preview` is optional (`result_preview?: string`). -/
def executedQueryFields (e : ExecutedQuery) : List String :=
  ["query", "timestamp"]
    ++ (if e.result_preview.isSome then ["result_preview"] else [])

/-- How the client renders the suggestions section of a snapshot
(`page.tsx` lines 325-454): the markdown body when `completed`, the red
error box when `error`, the loading skeleton otherwise. -/
inductive SuggestionView where
  | markdown (text : String)
  | errorBox (text : String)
  | skeleton
deriving DecidableEq, Repr

/-- The suggestions rendering decision of `SkeletonCard`
(`page.tsx` lines 325, 439, 443). -/
def suggestionView (q : SlowQuery) : SuggestionView :=
  if q.status == completed then .markdown q.suggestions
  else if q.status == error then .errorBox q.suggestions
  else .skeleton

/-- A non-terminal (pending) snapshot, as typed by the client. -/
def pendingSnapshot : SlowQuery :=
  ⟨"1", "SELECT 1", "", pending, none, 0, none, []⟩

/-- Counterexample to C7: a pending (non-terminal) snapshot still carries
the `suggestions` field — the client's `SlowQuery` type declares
`suggestions` as a required field, not one present only once the job is
completed or errored; likewise `result_preview` is optional in
`ExecutedQuery`, so a log entry need not carry it. -/
theorem C7_snapshot_fields_counterexample :
    pendingSnapshot.status ≠ completed
    ∧ pendingSnapshot.status ≠ error
    ∧ "suggestions" ∈ snapshotFields pendingSnapshot
    ∧ "result_preview" ∉ executedQueryFields ⟨"SELECT 1", "t0", none⟩ := by
  refine ⟨by decide, by decide, ?_, ?_⟩
  · simp [snapshotFields, pendingSnapshot]
  · simp [executedQueryFields]

/-- C7 (amended): every job snapshot, per the client's declared types,
contains `id`, `query`, `status`, `progress_percentage`,
`executed_queries` and an always-present `suggestions` field; `current_step`
and `current_customer_query` are present exactly when set; each
`executed_queries` entry contains `query` and `timestamp`, with
`result_preview` present exactly when set; and the client displays the
`suggestions` content exactly when the job is completed or errored, showing
a placeholder otherwise. -/
theorem C7_snapshot_fields :
    ∀ (q : SlowQuery) (e : ExecutedQuery),
      "id" ∈ snapshotFields q
      ∧ "query" ∈ snapshotFields q
      ∧ "status" ∈ snapshotFields q
      ∧ "progress_percentage" ∈ snapshotFields q
      ∧ "executed_queries" ∈ snapshotFields q
      ∧ "suggestions" ∈ snapshotFields q
      ∧ ("current_step" ∈ snapshotFields q ↔ q.current_step.isSome = true)
      ∧ ("current_customer_query" ∈ snapshotFields q
          ↔ q.current_customer_query.isSome = true)
      ∧ "query" ∈ executedQueryFields e
      ∧ "timestamp" ∈ executedQueryFields e
      ∧ ("result_preview" ∈ executedQueryFields e ↔ e.result_preview.isSome = true)
      ∧ (suggestionView q ≠ .skeleton ↔ isTerminal q.status = true) := by
  intro q e
  refine ⟨?_, ?_, ?_, ?_, ?_, ?_, ?_, ?_, ?_, ?_, ?_, ?_⟩
  · simp [snapshotFields]
  · simp [snapshotFields]
  · simp [snapshotFields]
  · simp [snapshotFields]
  · simp [snapshotFields]
  · simp [snapshotFields]
  · cases h : q.current_step <;> simp [snapshotFields, h]
  · cases h : q.current_customer_query <;> simp [snapshotFields, h]
  · simp [executedQueryFields]
  · simp [executedQueryFields]
  · cases h : e.result_preview <;> simp [executedQueryFields, h]
  · unfold suggestionView isTerminal
    cases hs : q.status <;> simp

/-- Whitespace as stripped by JavaScript's `String.prototype.trim`, used by
the guard `if (!sql.trim()) return` (`page.tsx` line 173). -/
def jsWhitespace (c : Char) : Bool := c.isWhitespace

/-- `sql.trim()`: the input with leading and trailing whitespace removed. -/
def jsTrim (s : String) : String :=
  ⟨((s.data.dropWhile jsWhitespace).reverse.dropWhile jsWhitespace).reverse⟩

/-- What the `optimize` handler does with the input: nothing, or a POST to
the `/optimize` endpoint carrying the SQL text. -/
inductive OptimizeEffect where
  | noop
  | request (body : String)
deriving DecidableEq, Repr

/-- The guard at the head of `optimize` (`page.tsx` line 173):
`if (!sql.trim()) return` — the empty trimmed string is falsy, so blank
input returns before any request; otherwise the request is sent with the
original text (line 179). -/
def optimizeEffect (sql : String) : OptimizeEffect :=
  if jsTrim sql = "" then .noop else .request sql

/-- The optimizer tab's displayed result (`result` state, `page.tsx`
line 19). -/
structure OptimizerState where
  result : Option String
deriving DecidableEq, Repr

/-- Running `optimize` (`page.tsx` lines 172-189): blank input is a no-op
(state unchanged, no request); otherwise the request is issued and the
response replaces the displayed result.  Returns the new state and the
request body, if any. -/
def optimizeRun (st : OptimizerState) (sql response : String) :
    OptimizerState × Option String :=
  match optimizeEffect sql with
  | .noop => (st, none)
  | .request body => (⟨some response⟩, some body)

theorem all_of_dropWhile_all (p : Char → Bool) (l : List Char)
    (h : ∀ c ∈ l.dropWhile p, p c = true) : ∀ c ∈ l, p c = true := by
  intro c hc
  rw [← List.takeWhile_append_dropWhile (p := p) (l := l)] at hc
  rcases List.mem_append.mp hc with h1 | h2
  · exact List.mem_takeWhile_imp h1
  · exact h c h2

theorem jsTrim_eq_empty_iff (s : String) :
    jsTrim s = "" ↔ s.data.all jsWhitespace = true := by
  unfold jsTrim
  constructor
  · intro h
    have hl : ((s.data.dropWhile jsWhitespace).reverse.dropWhile jsWhitespace).reverse
        = [] := by
      have : (⟨((s.data.dropWhile jsWhitespace).reverse.dropWhile jsWhitespace).reverse⟩
          : String).data = ("" : String).data := by rw [h]
      simpa using this
    rw [List.reverse_eq_nil_iff, List.dropWhile_eq_nil_iff] at hl
    rw [List.all_eq_true]
    exact all_of_dropWhile_all jsWhitespace s.data
      (fun c hc => hl c (List.mem_reverse.mpr hc))
  · intro h
    rw [List.all_eq_true] at h
    have hdw : s.data.dropWhile jsWhitespace = [] :=
      List.dropWhile_eq_nil_iff.mpr h
    rw [hdw]
    rfl

/-- C9: the client's optimize operation is a no-op for blank input — for
every SQL text consisting only of whitespace (or empty), no request is sent
and the displayed result is unchanged; a request (carrying the text) is
issued exactly when the text contains a non-whitespace character. -/
theorem C9_blank_optimize :
    ∀ (sql response : String) (st : OptimizerState),
      (optimizeEffect sql = .noop ↔ sql.data.all jsWhitespace = true)
      ∧ (sql.data.all jsWhitespace = true → optimizeRun st sql response = (st, none))
      ∧ (sql.data.all jsWhitespace = false →
          optimizeRun st sql response = (⟨some response⟩, some sql)) := by
  intro sql response st
  have hkey : optimizeEffect sql = .noop ↔ sql.data.all jsWhitespace = true := by
    unfold optimizeEffect
    by_cases h : jsTrim sql = ""
    · rw [if_pos h]
      simp [(jsTrim_eq_empty_iff sql).mp h]
    · rw [if_neg h]
      constructor
      · intro hc; cases hc
      · intro hall
        exact absurd ((jsTrim_eq_empty_iff sql).mpr hall) h
  refine ⟨hkey, ?_, ?_⟩
  · intro hall
    unfold optimizeRun
    rw [hkey.mpr hall]
  · intro hnot
    unfold optimizeRun
    unfold optimizeEffect
    rw [if_neg (fun hc => by rw [(jsTrim_eq_empty_iff sql).mp hc] at hnot; cases hnot)]

/-- Witness for C9: blank input `"   "` leaves the displayed result
untouched and sends nothing; `" SELECT 1 "` issues the request. -/
theorem C9_blank_optimize_witness :
    optimizeRun ⟨some "old"⟩ "   " "resp" = (⟨some "old"⟩, none) :=
  (C9_blank_optimize "   " "resp" ⟨some "old"⟩).2.1 (by decide)

/-- One row of the `statements` table, from `src/db/ddl.sql` (lines 1-36):
the shard identity, the `pg_stat_statements`-style columns, and the
AI-generated suggestion.  Nullable columns are `Option`s; `double precision`
columns are `Float`s; `jsonb` is kept as text. -/
structure StatementRow where
  cluster_id : Int
  node_id : Int
  userid : Option Int
  dbid : Option Int
  queryid : Option Int
  query : Option String
  calls : Option Int
  total_time : Option Float
  min_time : Option Float
  max_time : Option Float
  mean_time : Option Float
  stddev_time : Option Float
  rows : Option Int
  shared_blks_hit : Option Int
  shared_blks_read : Option Int
  shared_blks_dirtied : Option Int
  shared_blks_written : Option Int
  local_blks_hit : Option Int
  local_blks_read : Option Int
  local_blks_dirtied : Option Int
  local_blks_written : Option Int
  temp_blks_read : Option Int
  temp_blks_written : Option Int
  blk_read_time : Option Float
  blk_write_time : Option Float
  yb_latency_histogram : Option String
  ai_suggestion : Option String

/-- The `statements_pkey` key of a row: `(cluster_id, node_id)`
(`ddl.sql` line 35). -/
def pkey (r : StatementRow) : Int × Int := (r.cluster_id, r.node_id)

/-- A table instance satisfies `CONSTRAINT statements_pkey PRIMARY KEY
(cluster_id, node_id)` when no two distinct rows share a key. -/
def statementsPkeyOk (t : List StatementRow) : Prop :=
  t.Pairwise (fun a b => pkey a ≠ pkey b)

theorem countP_pkey_le_one (cid nid : Int) :
    ∀ t : List StatementRow, statementsPkeyOk t →
      t.countP (fun r => decide (pkey r = (cid, nid))) ≤ 1 := by
  intro t
  induction t with
  | nil => intro _; simp
  | cons a rest ih =>
      intro hpk
      rw [statementsPkeyOk, List.pairwise_cons] at hpk
      obtain ⟨hhead, htail⟩ := hpk
      rw [List.countP_cons]
      by_cases h : pkey a = (cid, nid)
      · have hz : rest.countP (fun r => decide (pkey r = (cid, nid))) = 0 := by
          rw [List.countP_eq_zero]
          intro r hr
          simp only [decide_eq_true_eq]
          intro hc
          exact hhead r hr (by rw [h, hc])
        rw [hz]
        simp [h]
      · simp only [h, decide_eq_true_eq, if_neg h]
        simpa using ih htail

/-- C10: in any table instance satisfying the `statements_pkey` primary key,
each `(cluster_id, node_id)` pair identifies at most one row, and two rows
of the table with the same key are the same row — so a second distinct
statement (e.g. with a different `query` or `ai_suggestion`) cannot coexist
with the first for the same node. -/
theorem C10_statements_primary_key :
    ∀ t : List StatementRow, statementsPkeyOk t →
      (∀ cid nid : Int,
          t.countP (fun r => decide (pkey r = (cid, nid))) ≤ 1)
      ∧ (∀ r1 r2 : StatementRow, r1 ∈ t → r2 ∈ t → pkey r1 = pkey r2 → r1 = r2) := by
  intro t hpk
  constructor
  · intro cid nid
    exact countP_pkey_le_one cid nid t hpk
  · intro r1 r2 h1 h2 hk
    by_cases he : r1 = r2
    · exact he
    · exact absurd hk (hpk.forall (by intro a b h e; exact h e.symm) h1 h2 he)

/-- A sample row with the given key and query text; all other columns NULL. -/
def sampleRow (cid nid : Int) (q : Option String) : StatementRow :=
  ⟨cid, nid, none, none, none, q, none, none, none, none, none, none, none,
    none, none, none, none, none, none, none, none, none, none, none, none,
    none, none⟩

/-- Witness for C10 at a concrete two-row table with distinct keys. -/
theorem C10_statements_primary_key_witness :
    List.countP (fun r => decide (pkey r = (1, 1)))
        [sampleRow 1 1 (some "SELECT 1"), sampleRow 1 2 (some "SELECT 2")] ≤ 1 :=
  (C10_statements_primary_key
    [sampleRow 1 1 (some "SELECT 1"), sampleRow 1 2 (some "SELECT 2")]
    (by simp [statementsPkeyOk, sampleRow, pkey])).1 1 1

end SlowQueries
